import Mathlib

/-!
Verification development for `mongoprofile.py`: a shallow embedding of the
record-classification engine (pattern catalog, record classifier, option
fragment parser, type coercion pass, record rendering) and of the session
harness loop (`MongoProfiler.__exit__`, `_setup_ts_diff`).

Python strings are modelled as `List Char`, Python dicts as association
lists with in-place update (`dictSet` replaces the first binding of an
existing key, appends otherwise), Python exceptions as `Except PyErr`,
Python floats as exact rationals, and `datetime` timestamps as integer
microsecond counts.  Python 2 regular expressions are modelled by a small
backtracking matcher (`mrun`/`research`) whose candidate ordering mirrors
the CPython engine's depth-first, leftmost, greedy/lazy search order.
-/

set_option maxHeartbeats 1000000

def chars (s : String) : List Char := s.data

/-- Values stored in a profiler record: text, integers, booleans
(bare option flags), `datetime` timestamps (microseconds since an epoch),
and floats (modelled as exact rationals, used only for `ts_diff`). -/
inductive Value where
  | vStr : List Char → Value
  | vInt : Int → Value
  | vBool : Bool → Value
  | vTs : Int → Value
  | vFloat : Rat → Value
deriving DecidableEq, Repr

abbrev Dict := List (List Char × Value)

/-- Python exceptions that the embedded code can raise. -/
inductive PyErr where
  | keyError
  | typeError
  | attributeError
deriving DecidableEq, Repr

instance : Inhabited Value := ⟨Value.vBool false⟩

deriving instance DecidableEq for Except

/-- Python dict lookup `d[k]` / `d.get(k)` as an `Option`. -/
def dictGet (d : Dict) (k : List Char) : Option Value :=
  match d with
  | [] => none
  | kv :: rest => if kv.1 = k then some kv.2 else dictGet rest k

/-- Python dict assignment `d[k] = v`: replaces the binding in place when
the key exists, appends a new binding otherwise. -/
def dictSet (d : Dict) (k : List Char) (v : Value) : Dict :=
  match d with
  | [] => [(k, v)]
  | kv :: rest => if kv.1 = k then (k, v) :: rest else kv :: dictSet rest k v

/-- Python `del d[k]` (on a dict with unique keys). -/
def dictDel (d : Dict) (k : List Char) : Dict :=
  d.filter (fun kv => decide (kv.1 ≠ k))

/-- Python `d.update(kvs)`. -/
def dictUpdate (d : Dict) (kvs : List (List Char × Value)) : Dict :=
  kvs.foldl (fun a kv => dictSet a kv.1 kv.2) d

/-- Python truthiness of a record value (`bool(v)`); `datetime` values are
always truthy. -/
def truthy : Value → Bool
  | .vStr s => !s.isEmpty
  | .vInt n => n != 0
  | .vBool b => b
  | .vTs _ => true
  | .vFloat q => q != 0

def truthyO : Option Value → Bool
  | none => false
  | some v => truthy v

/-- Characters treated as whitespace by Python's `str.strip()`/`str.split()`. -/
def pyIsSpace (c : Char) : Bool :=
  c = ' ' || c = '\t' || c = '\n' || c = '\r' || c = '\x0b' || c = '\x0c'

/-- Python `s.strip()`. -/
def pyStrip (s : List Char) : List Char :=
  ((s.dropWhile pyIsSpace).reverse.dropWhile pyIsSpace).reverse

def pySplitGo : List Char → List Char → List (List Char)
  | [], acc => if acc.isEmpty then [] else [acc.reverse]
  | c :: cs, acc =>
    if pyIsSpace c then
      if acc.isEmpty then pySplitGo cs [] else acc.reverse :: pySplitGo cs []
    else pySplitGo cs (c :: acc)

/-- Python `s.split()` with no arguments: split on runs of whitespace,
dropping empty tokens. -/
def pySplit (s : List Char) : List (List Char) := pySplitGo s []

/-- Python `s.split(c, 1)` for `c = ':'`: `[s]` when the string holds no
colon, otherwise the part before the first colon and the remainder. -/
def pySplitColon1 : List Char → List (List Char)
  | [] => [[]]
  | c :: cs =>
    if c = ':' then [[], cs]
    else
      match pySplitColon1 cs with
      | k :: rest => (c :: k) :: rest
      | [] => [[c]]

def digitsValGo : List Char → Nat → Option Nat
  | [], acc => some acc
  | c :: cs, acc =>
    if '0' ≤ c ∧ c ≤ '9' then digitsValGo cs (acc * 10 + (c.toNat - '0'.toNat))
    else none

/-- Value of a non-empty all-digit string, `none` otherwise. -/
def digitsVal (ds : List Char) : Option Nat :=
  if ds.isEmpty then none else digitsValGo ds 0

/-- Python 2 `int(s)` on a string: surrounding whitespace is stripped, an
optional single sign is allowed, and the rest must be one or more ASCII
decimal digits; any other shape raises `ValueError` (modelled as `none`). -/
def pyInt (s : List Char) : Option Int :=
  match pyStrip s with
  | '+' :: ds => (digitsVal ds).map (fun n => (n : Int))
  | '-' :: ds => (digitsVal ds).map (fun n => -(n : Int))
  | ds => (digitsVal ds).map (fun n => (n : Int))

/-- Python `str(v)` as used by `'%s' % v` and `'%(name)s' % record`.
The renderings of `datetime` and `float` values are abstracted (no claim
depends on them); strings, integers and booleans follow Python. -/
def pyStr : Value → List Char
  | .vStr s => s
  | .vInt n => if n < 0 then '-' :: Nat.toDigits 10 (-n).toNat else Nat.toDigits 10 n.toNat
  | .vBool b => if b then chars ("True") else chars ("False")
  | .vTs t => chars ("datetime<") ++ Nat.toDigits 10 t.toNat ++ chars (">")
  | .vFloat q => chars ("float<") ++ Nat.toDigits 10 q.num.toNat ++ chars (">")

/-- `_parse_record_options` from the source:
strip the fragment, split it on whitespace, then give each token holding a
colon the value after the first colon and each bare token the value `True`. -/
def _parse_record_options (options : List Char) : Dict :=
  (pySplit (pyStrip options)).foldl
    (fun ret option =>
      if (':' : Char) ∈ option then
        match pySplitColon1 option with
        | [k, v] => dictSet ret k (Value.vStr v)
        | _ => ret
      else dictSet ret option (Value.vBool true))
    []

/-- One step of the type-coercion loop in `parse_record`: a string value
that `int()` accepts is replaced by the integer; everything else is kept. -/
def coerceV : Value → Value
  | .vStr s =>
    match pyInt s with
    | some n => .vInt n
    | none => .vStr s
  | v => v

/-- The `convert ints to integer` loop of `parse_record`, applied to every
field of the record. -/
def coercePass (d : Dict) : Dict :=
  d.map (fun kv => (kv.1, coerceV kv.2))

/-- Regular expressions as used by the pattern catalog: literals, character
classes, concatenation, greedy (`true`) or lazy (`false`) star, and named
groups. -/
inductive RE where
  | lit : Char → RE
  | cls : (Char → Bool) → RE
  | cat : RE → RE → RE
  | star : Bool → RE → RE
  | group : List Char → RE → RE

abbrev Groups := List (List Char × List Char)

def catMap {α β : Type} (f : α → List β) : List α → List β
  | [] => []
  | a :: as => f a ++ catMap f as

/-- Backtracking matcher: all ways for `r` to match a prefix of `s`, each as
(remaining suffix, captured named groups), listed in the CPython engine's
depth-first priority order (greedy stars longest first, lazy stars shortest
first).  A star iteration must consume at least one character.  `fuel`
decreases at every recursive call (keeping the function structurally
recursive and kernel-evaluable) and running out of fuel yields no results;
`research` provisions fuel far above the deepest possible call path, so the
bound is never reached on the fuel it supplies. -/
def mrun : Nat → RE → List Char → List (List Char × Groups)
  | 0, _, _ => []
  | fuel + 1, r, s =>
    match r, s with
    | .lit _, [] => []
    | .lit c, x :: xs => if x = c then [(xs, [])] else []
    | .cls _, [] => []
    | .cls p, x :: xs => if p x then [(xs, [])] else []
    | .cat r1 r2, s =>
      catMap (fun pr =>
        (mrun fuel r2 pr.1).map (fun qr => (qr.1, pr.2 ++ qr.2))) (mrun fuel r1 s)
    | .group n r, s =>
      (mrun fuel r s).map (fun pr => (pr.1, pr.2 ++ [(n, s.take (s.length - pr.1.length))]))
    | .star g r, s =>
      let deeper := catMap (fun pr =>
        if pr.1.length < s.length then
          (mrun fuel (.star g r) pr.1).map (fun qr => (qr.1, pr.2 ++ qr.2))
        else []) (mrun fuel r s)
      if g then deeper ++ [(s, [])] else (s, []) :: deeper

/-- Size of a pattern, used to provision matcher fuel. -/
def reSize : RE → Nat
  | .lit _ => 1
  | .cls _ => 1
  | .cat r1 r2 => reSize r1 + reSize r2 + 1
  | .star _ r => reSize r + 1
  | .group _ r => reSize r + 1

/-- Python `regex.search(s)`: try each start position from the left; at the
first position where a match exists, return the groups of the engine's
first (depth-first) match. -/
def research (r : RE) : List Char → Option Groups
  | [] => ((mrun (reSize r + 2) r []).head?).map (fun pr => pr.2)
  | c :: cs =>
    match (mrun ((cs.length + 2) * (cs.length + 2) * (reSize r + 2)) r (c :: cs)).head? with
    | some pr => some pr.2
    | none => research r cs

/-- `reqChar c r` holds when every string matched by `r` must contain the
character `c` (a literal `c` lies on every path through `r`). -/
def reqChar (c : Char) : RE → Bool
  | .lit d => c = d
  | .cls _ => false
  | .cat r1 r2 => reqChar c r1 || reqChar c r2
  | .star _ _ => false
  | .group _ r => reqChar c r

def rcat : List RE → RE
  | [] => .star true (.cls fun _ => false)
  | [r] => r
  | r :: rs => .cat r (rcat rs)

def rstr (s : List Char) : RE := rcat (s.map .lit)

/-- `.` in a pattern compiled without DOTALL: any character except newline. -/
def reAny : RE := .cls (fun c => c != '\n')

/-- `x+` is `x` followed by greedy `x*`. -/
def rePlus (r : RE) : RE := .cat r (.star true r)

/-- `\d` (patterns are compiled without the UNICODE flag). -/
def reDigit : RE := .cls (fun c => '0' ≤ c && c ≤ '9')

/-- A negated character class `[^c]` (which, unlike `.`, matches newline). -/
def reNotCh (c : Char) : RE := .cls (fun x => x != c)

/-- Mirrors `_re_command_record`:
`query (?P<db>[^.]+)\.\$cmd ntoreturn:(?P<ntoreturn>\d+) command: (?P<command>{.*}) (?P<options>.*)`. -/
def _re_command_record : RE := rcat [
  rstr (chars ("query ")),
  .group (chars ("db")) (rePlus (reNotCh '.')),
  rstr (chars (".$cmd ntoreturn:")),
  .group (chars ("ntoreturn")) (rePlus reDigit),
  rstr (chars (" command: ")),
  .group (chars ("command")) (rcat [.lit '{', .star true reAny, .lit '}']),
  .lit ' ',
  .group (chars ("options")) (.star true reAny)]

/-- Mirrors `_re_query_record`:
`query (?P<db>[^.]+)\.(?P<collection>[^ ]+) (?P<options1>.*)\nquery: (?P<query>{.*}) (?P<options2>.*)`. -/
def _re_query_record : RE := rcat [
  rstr (chars ("query ")),
  .group (chars ("db")) (rePlus (reNotCh '.')),
  .lit '.',
  .group (chars ("collection")) (rePlus (reNotCh ' ')),
  .lit ' ',
  .group (chars ("options1")) (.star true reAny),
  .lit '\n',
  rstr (chars ("query: ")),
  .group (chars ("query")) (rcat [.lit '{', .star true reAny, .lit '}']),
  .lit ' ',
  .group (chars ("options2")) (.star true reAny)]

/-- Mirrors `_re_getmore_record`:
`getmore (?P<db>[^.]+)\.(?P<collection>[^ ]+) (?P<options1>.*?) getMore: (?P<query>{.*})(?P<options2>.*)`. -/
def _re_getmore_record : RE := rcat [
  rstr (chars ("getmore ")),
  .group (chars ("db")) (rePlus (reNotCh '.')),
  .lit '.',
  .group (chars ("collection")) (rePlus (reNotCh ' ')),
  .lit ' ',
  .group (chars ("options1")) (.star false reAny),
  rstr (chars (" getMore: ")),
  .group (chars ("query")) (rcat [.lit '{', .star true reAny, .lit '}']),
  .group (chars ("options2")) (.star true reAny)]

/-- Mirrors `_re_marker_record`:
`query (?P<db>[^.]+)\.phony_mongoprofile_marker.*\nquery: { \$query: { text: "(?P<text>.*)" } }`. -/
def _re_marker_record : RE := rcat [
  rstr (chars ("query ")),
  .group (chars ("db")) (rePlus (reNotCh '.')),
  rstr (chars (".phony_mongoprofile_marker")),
  .star true reAny,
  .lit '\n',
  rstr (chars ("query: \x7b $query: \x7b text: \"")),
  .group (chars ("text")) (.star true reAny),
  rstr (chars ("\" \x7d \x7d"))]

/-- Mirrors `_re_insert_record`: `insert (?P<db>[^.]+)\.(?P<collection>[^ ]+)`. -/
def _re_insert_record : RE := rcat [
  rstr (chars ("insert ")),
  .group (chars ("db")) (rePlus (reNotCh '.')),
  .lit '.',
  .group (chars ("collection")) (rePlus (reNotCh ' '))]

/-- Mirrors `_re_update_record`:
`update (?P<db>[^.]+)\.(?P<collection>[^ ]+)  query: (?P<query>{.*})(?P<options>.*)`. -/
def _re_update_record : RE := rcat [
  rstr (chars ("update ")),
  .group (chars ("db")) (rePlus (reNotCh '.')),
  .lit '.',
  .group (chars ("collection")) (rePlus (reNotCh ' ')),
  rstr (chars ("  query: ")),
  .group (chars ("query")) (rcat [.lit '{', .star true reAny, .lit '}']),
  .group (chars ("options")) (.star true reAny)]

/-- Mirrors `_re_remove_record`:
`remove (?P<db>[^.]+)\.(?P<collection>[^ ]+)  query: (?P<query>{.*})(?P<options>.*)`. -/
def _re_remove_record : RE := rcat [
  rstr (chars ("remove ")),
  .group (chars ("db")) (rePlus (reNotCh '.')),
  .lit '.',
  .group (chars ("collection")) (rePlus (reNotCh ' ')),
  rstr (chars ("  query: ")),
  .group (chars ("query")) (rcat [.lit '{', .star true reAny, .lit '}']),
  .group (chars ("options")) (.star true reAny)]

/-- A classified record: the `record_type` class attribute of the matched
record class, plus the dict contents. -/
structure Rec where
  rtype : List Char
  fields : Dict
deriving DecidableEq, Repr

/-- The ordered `record_map` of `parse_record`, pairing each pattern with
the `record_type` of its record class. -/
def record_map : List (RE × List Char) := [
  (_re_marker_record, chars ("marker")),
  (_re_command_record, chars ("command")),
  (_re_query_record, chars ("query")),
  (_re_insert_record, chars ("insert")),
  (_re_update_record, chars ("update")),
  (_re_remove_record, chars ("remove")),
  (_re_getmore_record, chars ("get_more"))]

/-- The `find record by info` loop of `parse_record`: the first pattern in
`record_map` that matches wins; its record class is instantiated from the
source dict and the captured groups are merged in.  With no match the
record is an `UnknownRecord` holding just the source fields. -/
def classify : List (RE × List Char) → Dict → List Char → Rec
  | [], src, _ => ⟨chars ("unknown"), src⟩
  | (re, ty) :: rest, src, info =>
    match research re info with
    | some gs => ⟨ty, dictUpdate src (gs.map (fun g => (g.1, Value.vStr g.2)))⟩
    | none => classify rest src info

def isOptionsKey (k : List Char) : Bool := (chars ("options")).isPrefixOf k

/-- The `parse record options` loop of `parse_record`: iterate over a
snapshot of the record's keys; each key starting with `options` is popped
and its (string) value parsed and merged in.  A popped non-string value
would raise `AttributeError` in `strip` and a vanished key `KeyError`. -/
def expandLoop : List (List Char) → Dict → Except PyErr Dict
  | [], d => Except.ok d
  | k :: ks, d =>
    if isOptionsKey k then
      match dictGet d k with
      | some (Value.vStr s) => expandLoop ks (dictUpdate (dictDel d k) (_parse_record_options s))
      | some _ => Except.error PyErr.attributeError
      | none => Except.error PyErr.keyError
    else expandLoop ks d

/-- `parse_record` from the source.  `record_source['info']` raises
`KeyError` when the field is missing (and `regex.search` raises `TypeError`
on a non-string); then classification, options expansion and the type
coercion pass run in order. -/
def parse_record (record_source : Dict) : Except PyErr Rec :=
  match dictGet record_source (chars ("info")) with
  | some (Value.vStr info) =>
    let record := classify record_map record_source info
    match expandLoop (record.fields.map Prod.fst) record.fields with
    | Except.ok fs => Except.ok ⟨record.rtype, coercePass fs⟩
    | Except.error e => Except.error e
  | some _ => Except.error PyErr.typeError
  | none => Except.error PyErr.keyError

/-- The `__str__` renderings of the record classes, dispatched on
`record_type`; a missing field referenced by the format string would raise
(`none`).  `UnknownRecord` has no specialized rendering. -/
def recStr (r : Rec) : Option (List Char) :=
  if r.rtype = chars ("command") then
    match dictGet r.fields (chars ("db")), dictGet r.fields (chars ("command")) with
    | some a, some b => some (pyStr a ++ chars ("> db.runCommand(") ++ pyStr b ++ chars (")"))
    | _, _ => none
  else if r.rtype = chars ("query") then
    match dictGet r.fields (chars ("db")), dictGet r.fields (chars ("collection")),
        dictGet r.fields (chars ("query")) with
    | some a, some b, some c =>
      some (pyStr a ++ chars ("> db.") ++ pyStr b ++ chars (".find(") ++ pyStr c ++ chars (")"))
    | _, _, _ => none
  else if r.rtype = chars ("marker") then
    (dictGet r.fields (chars ("text"))).map
      (fun t => chars ("==== ") ++ pyStr t ++ chars (" ===="))
  else if r.rtype = chars ("insert") then
    match dictGet r.fields (chars ("db")), dictGet r.fields (chars ("collection")) with
    | some a, some b =>
      some (pyStr a ++ chars ("> db.") ++ pyStr b ++ chars (".insert(\x7b...\x7d)"))
    | _, _ => none
  else if r.rtype = chars ("update") then
    match dictGet r.fields (chars ("db")), dictGet r.fields (chars ("collection")),
        dictGet r.fields (chars ("query")) with
    | some a, some b, some c =>
      some (pyStr a ++ chars ("> db.") ++ pyStr b ++ chars (".update(") ++ pyStr c
        ++ chars (", \x7b...\x7d)"))
    | _, _, _ => none
  else if r.rtype = chars ("remove") then
    match dictGet r.fields (chars ("db")), dictGet r.fields (chars ("collection")),
        dictGet r.fields (chars ("query")) with
    | some a, some b, some c =>
      some (pyStr a ++ chars ("> db.") ++ pyStr b ++ chars (".remove(") ++ pyStr c ++ chars (")"))
    | _, _, _ => none
  else if r.rtype = chars ("get_more") then
    match dictGet r.fields (chars ("db")), dictGet r.fields (chars ("collection")),
        dictGet r.fields (chars ("query")) with
    | some a, some b, some c =>
      some (pyStr a ++ chars ("> db.") ++ pyStr b ++ chars (".find(") ++ pyStr c
        ++ chars (") *getmore"))
    | _, _, _ => none
  else none

/-- The `useless_fields` of `BaseRecord.short_info`. -/
def useless_fields : List (List Char) :=
  [chars ("command"), chars ("info"), chars ("collection"), chars ("query"),
   chars ("db"), chars ("ts")]

/-- `BaseRecord.short_info`: work on a copy of the record, delete each
useless field that is present, then print the remaining items as
`'%s:%s '` pairs joined by two spaces. -/
def short_info (record0 : Dict) : List Char :=
  let record := useless_fields.foldl
    (fun r field => if field ∈ r.map Prod.fst then dictDel r field else r) record0
  List.intercalate (chars ("  "))
    (record.map (fun kv => kv.1 ++ chars (":") ++ pyStr kv.2 ++ chars (" ")))

/-- The value stored by `_setup_ts_diff`: for `diff = new_ts - prev_ts` (in
microseconds), Python's `timedelta` normalizes to days/seconds/microseconds
with `0 ≤ seconds < 86400` and `0 ≤ microseconds < 10^6`, and the code
stores `diff.seconds + diff.microseconds / 1e6` — the day part is dropped.
That float equals `(diff mod 86400·10^6)/10^6`; it is written with `mkRat`
so the kernel can evaluate it, and `timedeltaVal_eq` below shows it is
exactly the `seconds + microseconds/1e6` sum the code computes. -/
def timedeltaVal (total : Int) : Rat :=
  mkRat (total.emod 86400000000) 1000000

/-- `MongoProfiler._setup_ts_diff`: when both the previous and the current
timestamp are truthy, store their normalized difference under `ts_diff`.
Subtraction of non-`datetime` truthy values would raise (`TypeError`). -/
def setup_ts_diff (record : Dict) (prev_ts : Option Value) : Except PyErr Dict :=
  let new_ts := dictGet record (chars ("ts"))
  if truthyO prev_ts && truthyO new_ts then
    match prev_ts, new_ts with
    | some (Value.vTs p), some (Value.vTs n) =>
      Except.ok (dictSet record (chars ("ts_diff")) (Value.vFloat (timedeltaVal (n - p))))
    | _, _ => Except.error PyErr.typeError
  else Except.ok record

/-- The `ts_diff` threading of the `__exit__` loop (lines 58–64), applied to
already-classified records: each record gets `_setup_ts_diff` with the most
recent truthy `ts` seen so far, and `prev_ts` is updated when the record's
`ts` is truthy. -/
def tsLoop : List Dict → Option Value → Except PyErr (List Dict)
  | [], _ => Except.ok []
  | r :: rs, prev =>
    match setup_ts_diff r prev with
    | Except.error e => Except.error e
    | Except.ok r2 =>
      let prev2 := if truthyO (dictGet r2 (chars ("ts"))) then dictGet r2 (chars ("ts")) else prev
      match tsLoop rs prev2 with
      | Except.error e => Except.error e
      | Except.ok rest => Except.ok (r2 :: rest)

/-- The full `__exit__` record loop: classify each fetched entry, thread
`ts_diff`, and accumulate; the first raised exception propagates. -/
def drainLoop : List Dict → Option Value → Except PyErr (List Rec)
  | [], _ => Except.ok []
  | e :: es, prev =>
    match parse_record e with
    | Except.error err => Except.error err
    | Except.ok r =>
      match setup_ts_diff r.fields prev with
      | Except.error err => Except.error err
      | Except.ok fs =>
        let prev2 := if truthyO (dictGet fs (chars ("ts"))) then dictGet fs (chars ("ts")) else prev
        match drainLoop es prev2 with
        | Except.error err => Except.error err
        | Except.ok rest => Except.ok (⟨r.rtype, fs⟩ :: rest)

/-- `MongoProfiler.__exit__` (lines 49–65): process the fetched entries,
then call `set_profiling_level(prev_level)`.  The first component is the
trace of `set_profiling_level` calls; the restore call sits after the loop
with no `try/finally`, so an exception raised mid-loop propagates before it
is reached. -/
def profilerExit (prev_level : Int) (stats : List Dict) : List Int × Except PyErr (List Rec) :=
  match drainLoop stats none with
  | Except.ok rs => ([prev_level], Except.ok rs)
  | Except.error e => ([], Except.error e)

/-! Specification-side definitions, written from the spec's words, to be
compared with the source-derived functions above. -/

/-- Modelled from the spec (§4.3): trim the fragment, split it on runs of
whitespace, map each token with a colon to key/value split at the first
colon, and each colon-free token to the flag value `true`. -/
def splitAtFirstColon : List Char → Option (List Char × List Char)
  | [] => none
  | c :: cs =>
    if c = ':' then some ([], cs)
    else (splitAtFirstColon cs).map (fun p => (c :: p.1, p.2))

/-- Modelled from the spec (§4.3): the option-fragment parser described by
the claim's words. -/
def parseOptionsSpec (fragment : List Char) : Dict :=
  ((pySplit (pyStrip fragment)).map (fun tok =>
    match splitAtFirstColon tok with
    | some kv => (kv.1, Value.vStr kv.2)
    | none => (tok, Value.vBool true))).foldl
    (fun d kv => dictSet d kv.1 kv.2) []

/-- No pattern of the catalog matches the text. -/
def matchesNone (info : List Char) : Bool :=
  (research _re_marker_record info).isNone &&
  (research _re_command_record info).isNone &&
  (research _re_query_record info).isNone &&
  (research _re_insert_record info).isNone &&
  (research _re_update_record info).isNone &&
  (research _re_remove_record info).isNone &&
  (research _re_getmore_record info).isNone

/-- No field name of the dict starts with the reserved `options` prefix
(raw profiler entries never use it). -/
def keysClean (d : Dict) : Prop :=
  ∀ k ∈ d.map Prod.fst, isOptionsKey k = false

instance (d : Dict) : Decidable (keysClean d) := by
  unfold keysClean; infer_instance

/-- The record type of a classification result, when one was produced. -/
def rtypeOf : Except PyErr Rec → Option (List Char)
  | Except.ok r => some r.rtype
  | Except.error _ => none

def exceptOk {α : Type} : Except PyErr α → Bool
  | Except.ok _ => true
  | Except.error _ => false

/-- The timestamp of the last record in the list that carries one
(the most recent preceding timestamp, for a record that follows the list). -/
def lastTs : List Dict → Option Int
  | [] => none
  | r :: rs =>
    match lastTs rs, dictGet r (chars ("ts")) with
    | some t, _ => some t
    | none, some (Value.vTs t) => some t
    | none, _ => none

/-- A record whose `ts` field is either absent or a `datetime`, and which
does not already carry a `ts_diff` field. -/
def tsClean (r : Dict) : Bool :=
  (match dictGet r (chars ("ts")) with
   | none => true
   | some (Value.vTs _) => true
   | some _ => false) &&
  (dictGet r (chars ("ts_diff"))).isNone

def cleanAll (rs : List Dict) : Bool := rs.all tsClean

/-- Modelled from the spec's words for the amended C7: thread the most
recent timestamp through the record list, annotating each timestamped
record that has a timestamped predecessor. -/
def tsSpecGo : List Dict → Option Int → List Dict
  | [], _ => []
  | r :: rest, p =>
    let r2 := match dictGet r (chars ("ts")), p with
      | some (Value.vTs n), some q =>
        dictSet r (chars ("ts_diff")) (Value.vFloat (timedeltaVal (n - q)))
      | _, _ => r
    let p2 := match dictGet r (chars ("ts")) with
      | some (Value.vTs n) => some n
      | _ => p
    r2 :: tsSpecGo rest p2

/-! Generic lemmas about the matcher. -/

theorem mem_catMap {α β : Type} (f : α → List β) (l : List α) (b : β) :
    b ∈ catMap f l ↔ ∃ a ∈ l, b ∈ f a := by
  induction l with
  | nil => simp [catMap]
  | cons a as ih => simp [catMap, List.mem_append, ih]

theorem catMap_nil {α β : Type} (f : α → List β) (l : List α)
    (h : ∀ a ∈ l, f a = []) : catMap f l = [] := by
  induction l with
  | nil => rfl
  | cons a as ih =>
    simp only [catMap, h a (List.mem_cons_self a as), List.nil_append]
    exact ih (fun a' ha' => h a' (List.mem_cons_of_mem a ha'))

/-- Every match result's remaining suffix really is a suffix of the input. -/
theorem mrun_suffix : ∀ (fuel : Nat) (r : RE) (s : List Char),
    ∀ pr ∈ mrun fuel r s, pr.1 <:+ s := by
  intro fuel
  induction fuel with
  | zero => intro r s pr h; simp [mrun] at h
  | succ n ih =>
    intro r s pr h
    cases r with
    | lit c =>
      cases s with
      | nil => simp [mrun] at h
      | cons x xs =>
        simp only [mrun] at h
        by_cases hx : x = c
        · rw [if_pos hx] at h
          simp at h
          rw [h]
          exact List.suffix_cons x xs
        · rw [if_neg hx] at h; simp at h
    | cls p =>
      cases s with
      | nil => simp [mrun] at h
      | cons x xs =>
        simp only [mrun] at h
        by_cases hx : p x
        · rw [if_pos hx] at h
          simp at h
          rw [h]
          exact List.suffix_cons x xs
        · rw [if_neg hx] at h; simp at h
    | cat r1 r2 =>
      simp only [mrun] at h
      rw [mem_catMap] at h
      obtain ⟨pr1, h1, h2⟩ := h
      rw [List.mem_map] at h2
      obtain ⟨qr, hq, rfl⟩ := h2
      exact (ih r2 pr1.1 qr hq).trans (ih r1 s pr1 h1)
    | group nm r =>
      simp only [mrun] at h
      rw [List.mem_map] at h
      obtain ⟨qr, hq, rfl⟩ := h
      exact ih r s qr hq
    | star g r =>
      simp only [mrun] at h
      cases g with
      | true =>
        rw [if_pos rfl, List.mem_append] at h
        rcases h with h | h
        · rw [mem_catMap] at h
          obtain ⟨pr1, h1, h2⟩ := h
          by_cases hlt : pr1.1.length < s.length
          · rw [if_pos hlt, List.mem_map] at h2
            obtain ⟨qr, hq, rfl⟩ := h2
            exact (ih (.star true r) pr1.1 qr hq).trans (ih r s pr1 h1)
          · rw [if_neg hlt] at h2
            simp at h2
        · simp at h
          rw [h]
      | false =>
        rw [if_neg (by simp), List.mem_cons] at h
        rcases h with h | h
        · rw [h]
        · rw [mem_catMap] at h
          obtain ⟨pr1, h1, h2⟩ := h
          by_cases hlt : pr1.1.length < s.length
          · rw [if_pos hlt, List.mem_map] at h2
            obtain ⟨qr, hq, rfl⟩ := h2
            exact (ih (.star false r) pr1.1 qr hq).trans (ih r s pr1 h1)
          · rw [if_neg hlt] at h2
            simp at h2

/-- When a required character is absent from the input, the matcher yields
no result at all. -/
theorem mrun_req (c : Char) : ∀ (fuel : Nat) (r : RE) (s : List Char),
    reqChar c r = true → c ∉ s → mrun fuel r s = [] := by
  intro fuel
  induction fuel with
  | zero => intro r s _ _; rfl
  | succ n ih =>
    intro r s hreq hmem
    cases r with
    | lit d =>
      simp only [reqChar, decide_eq_true_eq] at hreq
      cases s with
      | nil => rfl
      | cons x xs =>
        simp only [mrun]
        rw [if_neg (fun hx : x = d => hmem (by rw [hreq, ← hx]; exact List.mem_cons_self x xs))]
    | cls p => simp [reqChar] at hreq
    | cat r1 r2 =>
      simp only [reqChar, Bool.or_eq_true] at hreq
      simp only [mrun]
      rcases hreq with h1 | h2
      · rw [ih r1 s h1 hmem]; rfl
      · apply catMap_nil
        intro pr1 hpr1
        have hns : c ∉ pr1.1 := fun hc => hmem ((mrun_suffix n r1 s pr1 hpr1).subset hc)
        rw [ih r2 pr1.1 h2 hns]
        rfl
    | group nm r =>
      simp only [reqChar] at hreq
      simp only [mrun]
      rw [ih r s hreq hmem]
      rfl
    | star g r => simp [reqChar] at hreq

/-- `search` finds nothing when a character required by the pattern does not
occur in the text. -/
theorem research_req (c : Char) (r : RE) (hreq : reqChar c r = true) :
    ∀ s : List Char, c ∉ s → research r s = none := by
  intro s
  induction s with
  | nil =>
    intro h
    simp [research, mrun_req c (reSize r + 2) r [] hreq h]
  | cons x xs ih =>
    intro h
    simp only [research]
    rw [mrun_req c ((xs.length + 2) * (xs.length + 2) * (reSize r + 2)) r (x :: xs) hreq h]
    exact ih (fun hc => h (List.mem_cons_of_mem _ hc))

/-! Lemmas about the dict model. -/

theorem dictGet_set_self (d : Dict) (k : List Char) (v : Value) :
    dictGet (dictSet d k v) k = some v := by
  induction d with
  | nil => simp [dictGet, dictSet]
  | cons kv rest ih =>
    by_cases h : kv.1 = k
    · simp [dictGet, dictSet, h]
    · simp [dictGet, dictSet, h, ih]

theorem dictGet_set_ne (d : Dict) (k : List Char) (v : Value) (k2 : List Char)
    (hne : k2 ≠ k) : dictGet (dictSet d k v) k2 = dictGet d k2 := by
  have h2 : ¬ k = k2 := fun hh => hne hh.symm
  induction d with
  | nil =>
    simp only [dictSet, dictGet]
    rw [if_neg h2]
  | cons kv rest ih =>
    by_cases h : kv.1 = k
    · have h3 : ¬ kv.1 = k2 := fun hh => h2 (h.symm.trans hh)
      simp only [dictSet, if_pos h, dictGet]
      rw [if_neg h2, if_neg h3]
    · simp only [dictSet, if_neg h, dictGet]
      by_cases h4 : kv.1 = k2
      · rw [if_pos h4, if_pos h4]
      · rw [if_neg h4, if_neg h4, ih]

theorem mem_keys_set (d : Dict) (k : List Char) (v : Value) (k2 : List Char)
    (h : k2 ∈ (dictSet d k v).map Prod.fst) : k2 ∈ d.map Prod.fst ∨ k2 = k := by
  induction d with
  | nil =>
    simp only [dictSet, List.map_cons, List.map_nil, List.mem_singleton] at h
    exact Or.inr h
  | cons kv rest ih =>
    by_cases hk : kv.1 = k
    · simp only [dictSet, if_pos hk, List.map_cons, List.mem_cons] at h
      rcases h with h | h
      · exact Or.inr h
      · exact Or.inl (List.mem_cons_of_mem _ h)
    · simp only [dictSet, if_neg hk, List.map_cons, List.mem_cons] at h
      rcases h with h | h
      · exact Or.inl (by rw [List.map_cons, List.mem_cons]; exact Or.inl h)
      · rcases ih h with h2 | h2
        · exact Or.inl (by rw [List.map_cons, List.mem_cons]; exact Or.inr h2)
        · exact Or.inr h2

theorem keys_set_not_mem (d : Dict) (k : List Char) (v : Value)
    (h : k ∉ d.map Prod.fst) : (dictSet d k v).map Prod.fst = d.map Prod.fst ++ [k] := by
  induction d with
  | nil => simp [dictSet]
  | cons kv rest ih =>
    have h1 : kv.1 ≠ k := fun hh => h (by rw [List.map_cons, List.mem_cons]; exact Or.inl hh.symm)
    have h5 : k ∉ rest.map Prod.fst := fun hh => h (by rw [List.map_cons, List.mem_cons]; exact Or.inr hh)
    simp only [dictSet, if_neg h1, List.map_cons, List.cons_append, List.cons.injEq, true_and]
    exact ih h5

theorem dictGet_coercePass (d : Dict) (k : List Char) :
    dictGet (coercePass d) k = (dictGet d k).map coerceV := by
  induction d with
  | nil => simp [coercePass, dictGet]
  | cons kv rest ih =>
    by_cases h : kv.1 = k
    · simp [coercePass, dictGet, h]
    · simp [coercePass, dictGet, h] at ih ⊢
      exact ih

theorem keys_coercePass (d : Dict) :
    (coercePass d).map Prod.fst = d.map Prod.fst := by
  induction d with
  | nil => rfl
  | cons kv rest ih =>
    simp only [coercePass, List.map_cons] at ih ⊢
    rw [ih]

/-! Lemmas about the options-expansion loop. -/

theorem expandLoop_skip (ks : List (List Char)) (d : Dict)
    (h : ∀ k ∈ ks, isOptionsKey k = false) : expandLoop ks d = Except.ok d := by
  induction ks with
  | nil => rfl
  | cons k ks ih =>
    have hk : isOptionsKey k = false := h k (List.mem_cons_self k ks)
    simp only [expandLoop, hk, Bool.false_eq_true, if_false]
    exact ih (fun k2 hk2 => h k2 (List.mem_cons_of_mem k hk2))

theorem expandLoop_last (ks : List (List Char)) (k0 : List Char) (d : Dict) (s : List Char)
    (h : ∀ k ∈ ks, isOptionsKey k = false) (h0 : isOptionsKey k0 = true)
    (hv : dictGet d k0 = some (Value.vStr s)) :
    ∃ d2, expandLoop (ks ++ [k0]) d = Except.ok d2 := by
  induction ks with
  | nil =>
    refine ⟨dictUpdate (dictDel d k0) (_parse_record_options s), ?_⟩
    simp only [List.nil_append, expandLoop, h0, if_true, hv]
  | cons k ks ih =>
    have hk : isOptionsKey k = false := h k (List.mem_cons_self k ks)
    simp only [List.cons_append, expandLoop, hk, Bool.false_eq_true, if_false]
    exact ih (fun k2 hk2 => h k2 (List.mem_cons_of_mem k hk2))

/-! Claim C1. -/

/-- Claim C1, as stated, is false: a RawLogEntry lacking its `info` field
makes `parse_record` raise `KeyError` (at `record_source['info']`); no
Unknown-kind Record is produced. -/
theorem c1_counterexample :
    parse_record [(chars ("ts"), Value.vTs 0)] = Except.error PyErr.keyError ∧
    rtypeOf (parse_record [(chars ("ts"), Value.vTs 0)]) ≠ some (chars ("unknown")) := by
  constructor
  · rfl
  · decide

/-- Claim C1 (amended): for every RawLogEntry without an `info` field,
classification does not return a Record at all — `parse_record` raises
`KeyError`, which its caller does not catch. -/
theorem c1_amended_theorem (src : Dict) (h : dictGet src (chars ("info")) = none) :
    parse_record src = Except.error PyErr.keyError := by
  simp only [parse_record, h]

/-- Concrete instance of the amended C1. -/
theorem c1_witness :
    dictGet [(chars ("ts"), Value.vTs 0)] (chars ("info")) = none ∧
    parse_record [(chars ("ts"), Value.vTs 0)] = Except.error PyErr.keyError :=
  ⟨by decide, c1_amended_theorem [(chars ("ts"), Value.vTs 0)] (by decide)⟩

/-! Claim C2. -/

/-- Claim C2, as stated, is false: when classification raises mid-stream
(here a `KeyError` from an entry without `info`), `__exit__` propagates the
exception before reaching `set_profiling_level(prev_level)`, so the prior
profiling level is restored zero times, not exactly once. -/
theorem c2_counterexample :
    (profilerExit 1 [[(chars ("ts"), Value.vTs 0)]]).1 = [] ∧
    (profilerExit 1 [[(chars ("ts"), Value.vTs 0)]]).2 = Except.error PyErr.keyError ∧
    ([] : List Int) ≠ [1] := by
  refine ⟨rfl, rfl, by decide⟩

/-- Claim C2 (amended): the session exit restores the prior profiling level
exactly once when the drain loop completes without raising, and does not
restore it at all when fetching/classification raises mid-stream (the
restore call sits after the loop with no `try/finally`). -/
theorem c2_amended_theorem (lvl : Int) (stats : List Dict) :
    (exceptOk (drainLoop stats none) = true → (profilerExit lvl stats).1 = [lvl]) ∧
    (exceptOk (drainLoop stats none) = false → (profilerExit lvl stats).1 = []) := by
  cases hd : drainLoop stats none with
  | ok rs => simp [profilerExit, exceptOk, hd]
  | error e => simp [profilerExit, exceptOk, hd]

/-- Concrete instances of the amended C2: one clean drain (restored once),
one failing drain (not restored). -/
theorem c2_witness :
    ((profilerExit 5 [[(chars ("info"), Value.vStr (chars ("zzz")))]]).1 = [5]) ∧
    ((profilerExit 7 [[(chars ("ts"), Value.vTs 0)]]).1 = []) :=
  ⟨(c2_amended_theorem 5 [[(chars ("info"), Value.vStr (chars ("zzz")))]]).1 (by decide),
   (c2_amended_theorem 7 [[(chars ("ts"), Value.vTs 0)]]).2 (by decide)⟩

/-! Claim C4. -/

theorem colon_split (tok : List Char) :
    ((':' : Char) ∈ tok →
      ∃ k v, splitAtFirstColon tok = some (k, v) ∧ pySplitColon1 tok = [k, v]) ∧
    ((':' : Char) ∉ tok → splitAtFirstColon tok = none) := by
  induction tok with
  | nil => exact ⟨fun h => absurd h (List.not_mem_nil _), fun _ => rfl⟩
  | cons c cs ih =>
    by_cases hc : c = ':'
    · constructor
      · intro _
        exact ⟨[], cs, by simp [splitAtFirstColon, hc], by simp [pySplitColon1, hc]⟩
      · intro h
        exact absurd (hc ▸ List.mem_cons_self c cs) h
    · have hcc : ¬ (c = ':') := hc
      constructor
      · intro h
        have hmem : (':' : Char) ∈ cs := by
          rcases List.mem_cons.mp h with h1 | h1
          · exact absurd h1.symm hcc
          · exact h1
        obtain ⟨k, v, h1, h2⟩ := ih.1 hmem
        refine ⟨c :: k, v, ?_, ?_⟩
        · simp [splitAtFirstColon, hcc, h1]
        · simp [pySplitColon1, hcc, h2]
      · intro h
        have hnm : (':' : Char) ∉ cs := fun hh => h (List.mem_cons_of_mem c hh)
        simp [splitAtFirstColon, hcc, ih.2 hnm]

theorem parse_options_fold (toks : List (List Char)) : ∀ ret : Dict,
    toks.foldl
      (fun ret option =>
        if (':' : Char) ∈ option then
          match pySplitColon1 option with
          | [k, v] => dictSet ret k (Value.vStr v)
          | _ => ret
        else dictSet ret option (Value.vBool true)) ret
    = (toks.map (fun tok =>
        match splitAtFirstColon tok with
        | some kv => (kv.1, Value.vStr kv.2)
        | none => (tok, Value.vBool true))).foldl
      (fun d kv => dictSet d kv.1 kv.2) ret := by
  induction toks with
  | nil => intro ret; rfl
  | cons tok toks ih =>
    intro ret
    simp only [List.foldl_cons, List.map_cons]
    rw [ih]
    congr 1
    by_cases hc : (':' : Char) ∈ tok
    · obtain ⟨k, v, h1, h2⟩ := (colon_split tok).1 hc
      rw [if_pos hc, h2, h1]
    · rw [if_neg hc, (colon_split tok).2 hc]

/-- Claim C4: `_parse_record_options` behaves exactly as the spec's words
describe (trim, split on whitespace runs, first-colon key/value split,
bare tokens become `True`), and in particular
`ParseOptions("ntoreturn:5 exhaust") = {ntoreturn: "5", exhaust: true}`
and the empty fragment yields the empty mapping. -/
theorem c4_theorem :
    (∀ fragment : List Char, _parse_record_options fragment = parseOptionsSpec fragment) ∧
    _parse_record_options (chars ("ntoreturn:5 exhaust")) =
      [(chars ("ntoreturn"), Value.vStr (chars ("5"))),
       (chars ("exhaust"), Value.vBool true)] ∧
    _parse_record_options (chars ("")) = [] := by
  refine ⟨?_, by decide, by decide⟩
  intro fragment
  unfold _parse_record_options parseOptionsSpec
  exact parse_options_fold (pySplit (pyStrip fragment)) []

/-! Claim C5. -/

/-- Claim C5: the type coercion pass maps every field value through
`coerceV`, which turns a string accepted by Python's `int()` into that
integer, leaves any other string unchanged, and leaves non-string values
untouched; in particular `"123"` becomes `123` and `"12a"` stays text. -/
theorem c5_theorem :
    (∀ (d : Dict) (k : List Char), dictGet (coercePass d) k = (dictGet d k).map coerceV) ∧
    (∀ (s : List Char) (n : Int), pyInt s = some n → coerceV (Value.vStr s) = Value.vInt n) ∧
    (∀ s : List Char, pyInt s = none → coerceV (Value.vStr s) = Value.vStr s) ∧
    (∀ v : Value, (∀ s : List Char, v ≠ Value.vStr s) → coerceV v = v) ∧
    coerceV (Value.vStr (chars ("123"))) = Value.vInt 123 ∧
    coerceV (Value.vStr (chars ("12a"))) = Value.vStr (chars ("12a")) := by
  refine ⟨dictGet_coercePass, ?_, ?_, ?_, by decide, by decide⟩
  · intro s n h; simp [coerceV, h]
  · intro s h; simp [coerceV, h]
  · intro v h
    cases v with
    | vStr s => exact absurd rfl (h s)
    | vInt n => rfl
    | vBool b => rfl
    | vTs t => rfl
    | vFloat q => rfl

/-- Concrete instance of C5's conditional parts. -/
theorem c5_witness :
    pyInt (chars ("7")) = some 7 ∧ coerceV (Value.vStr (chars ("7"))) = Value.vInt 7 :=
  ⟨by decide, c5_theorem.2.1 (chars ("7")) 7 (by decide)⟩

/-! Claim C9. -/

theorem del_filter_fold (fs : List (List Char)) : ∀ d : Dict,
    fs.foldl (fun r field => if field ∈ r.map Prod.fst then dictDel r field else r) d
    = d.filter (fun kv => decide (kv.1 ∉ fs)) := by
  induction fs with
  | nil =>
    intro d
    simp
  | cons f fs ih =>
    have hstep : ∀ d : Dict, (if f ∈ d.map Prod.fst then dictDel d f else d) = dictDel d f := by
      intro d
      by_cases h : f ∈ d.map Prod.fst
      · rw [if_pos h]
      · rw [if_neg h]
        unfold dictDel
        symm
        apply List.filter_eq_self.mpr
        intro kv hkv
        simp only [decide_eq_true_eq]
        exact fun hh => h (hh ▸ List.mem_map_of_mem Prod.fst hkv)
    intro d
    simp only [List.foldl_cons, hstep]
    rw [ih]
    unfold dictDel
    rw [List.filter_filter]
    apply List.filter_congr
    intro kv _
    by_cases h1 : kv.1 = f <;> by_cases h2 : kv.1 ∈ fs <;> simp [h1, h2]

/-- Claim C9: `short_info` renders exactly the fields outside the fixed
exclusion set `command, info, collection, query, db, ts`, each as a
`key:value ` pair, joined by two spaces; the record itself is untouched
(the code works on a copy, and the embedding is pure). -/
theorem c9_theorem : ∀ d : Dict,
    short_info d = List.intercalate (chars ("  "))
      ((d.filter (fun kv => decide (kv.1 ∉ useless_fields))).map
        (fun kv => kv.1 ++ chars (":") ++ pyStr kv.2 ++ chars (" "))) := by
  intro d
  unfold short_info
  rw [del_filter_fold]

/-! Plumbing for the classifier-level claims. -/

@[simp] theorem Rec_rtype_mk (t : List Char) (f : Dict) : (Rec.mk t f).rtype = t := rfl

@[simp] theorem Rec_fields_mk (t : List Char) (f : Dict) : (Rec.mk t f).fields = f := rfl

theorem keysClean_set (d : Dict) (k : List Char) (v : Value)
    (hd : keysClean d) (hk : isOptionsKey k = false) : keysClean (dictSet d k v) := by
  intro k2 hk2
  rcases mem_keys_set d k v k2 hk2 with h | h
  · exact hd k2 h
  · exact h ▸ hk

theorem parse_record_eq (src : Dict) (info : List Char)
    (hinfo : dictGet src (chars ("info")) = some (Value.vStr info)) :
    parse_record src =
      match expandLoop ((classify record_map src info).fields.map Prod.fst)
          (classify record_map src info).fields with
      | Except.ok fs => Except.ok ⟨(classify record_map src info).rtype, coercePass fs⟩
      | Except.error e => Except.error e := by
  simp only [parse_record, hinfo]

/-! Claim C3. -/

/-- Claim C3: classification tries the patterns in the fixed order Marker,
Command, Query, Insert, Update, Remove, GetMore and the first match wins:
whenever the Marker pattern fails and the Command pattern matches — in
particular on an `info` that also matches the Query pattern — the produced
Record is Command-kind, the Query pattern never being consulted. -/
theorem c3_theorem (src : Dict) (info a b c o : List Char)
    (hinfo : dictGet src (chars ("info")) = some (Value.vStr info))
    (hopt : keysClean src)
    (hm : research _re_marker_record info = none)
    (hc : research _re_command_record info =
      some [(chars ("db"), a), (chars ("ntoreturn"), b),
            (chars ("command"), c), (chars ("options"), o)])
    (_hq : (research _re_query_record info).isSome = true) :
    rtypeOf (parse_record src) = some (chars ("command")) := by
  have hcl : classify record_map src info =
      ⟨chars ("command"),
        dictSet (dictSet (dictSet (dictSet src (chars ("db")) (Value.vStr a))
          (chars ("ntoreturn")) (Value.vStr b)) (chars ("command")) (Value.vStr c))
          (chars ("options")) (Value.vStr o)⟩ := by
    simp only [record_map, classify, hm, hc]
    rfl
  have hkc3 : keysClean (dictSet (dictSet (dictSet src (chars ("db")) (Value.vStr a))
      (chars ("ntoreturn")) (Value.vStr b)) (chars ("command")) (Value.vStr c)) :=
    keysClean_set _ _ _ (keysClean_set _ _ _ (keysClean_set _ _ _ hopt (by decide))
      (by decide)) (by decide)
  have hnm : chars ("options") ∉ (dictSet (dictSet (dictSet src (chars ("db")) (Value.vStr a))
      (chars ("ntoreturn")) (Value.vStr b)) (chars ("command")) (Value.vStr c)).map Prod.fst :=
    fun hmem => absurd (hkc3 _ hmem) (by decide)
  have hkeys := keys_set_not_mem _ (chars ("options")) (Value.vStr o) hnm
  have hget := dictGet_set_self (dictSet (dictSet (dictSet src (chars ("db")) (Value.vStr a))
      (chars ("ntoreturn")) (Value.vStr b)) (chars ("command")) (Value.vStr c))
      (chars ("options")) (Value.vStr o)
  obtain ⟨d5, hd5⟩ := expandLoop_last _ (chars ("options")) _ o
      (fun k hk => hkc3 k hk) (by decide) hget
  rw [parse_record_eq src info hinfo, hcl]
  simp only [Rec_rtype_mk, Rec_fields_mk]
  rw [hkeys, hd5]
  rfl

/-- Concrete dual-matching instance for C3: an `info` text that matches
both the Command pattern and the Query pattern classifies as Command. -/
theorem c3_witness :
    research _re_marker_record
      (chars ("query t.$cmd ntoreturn:1 command: \x7ba\x7d b\nquery: \x7bc\x7d d")) = none ∧
    research _re_command_record
      (chars ("query t.$cmd ntoreturn:1 command: \x7ba\x7d b\nquery: \x7bc\x7d d")) =
      some [(chars ("db"), chars ("t")), (chars ("ntoreturn"), chars ("1")),
            (chars ("command"), chars ("\x7ba\x7d")), (chars ("options"), chars ("b"))] ∧
    (research _re_query_record
      (chars ("query t.$cmd ntoreturn:1 command: \x7ba\x7d b\nquery: \x7bc\x7d d"))).isSome = true ∧
    rtypeOf (parse_record [(chars ("info"), Value.vStr
      (chars ("query t.$cmd ntoreturn:1 command: \x7ba\x7d b\nquery: \x7bc\x7d d")))]) =
      some (chars ("command")) := by
  refine ⟨by decide, by decide, by decide, ?_⟩
  exact c3_theorem
    [(chars ("info"), Value.vStr
      (chars ("query t.$cmd ntoreturn:1 command: \x7ba\x7d b\nquery: \x7bc\x7d d")))]
    (chars ("query t.$cmd ntoreturn:1 command: \x7ba\x7d b\nquery: \x7bc\x7d d"))
    (chars ("t")) (chars ("1")) (chars ("\x7ba\x7d")) (chars ("b"))
    (by decide) (by decide) (by decide) (by decide) (by decide)

/-! Claim C6. -/

/-- Claim C6, as stated, is false: on an entry whose `info` matches no
pattern but which carries an (arbitrary-metadata) field named `options`,
the Unknown-kind record does not keep exactly the original fields — the
`options` field is removed and the parsed pair `foo ↦ "bar"`, a field not
among the originals, is merged in. -/
theorem c6_counterexample :
    parse_record [(chars ("info"), Value.vStr (chars ("zzz"))),
                  (chars ("options"), Value.vStr (chars ("foo:bar")))] =
      Except.ok ⟨chars ("unknown"),
        [(chars ("info"), Value.vStr (chars ("zzz"))),
         (chars ("foo"), Value.vStr (chars ("bar")))]⟩ ∧
    chars ("foo") ∉ ([(chars ("info"), Value.vStr (chars ("zzz"))),
                  (chars ("options"), Value.vStr (chars ("foo:bar")))] : Dict).map Prod.fst := by
  exact ⟨by decide, by decide⟩

/-- Claim C6 (amended): for every RawLogEntry whose `info` matches no
catalog pattern and none of whose field names starts with the reserved
`options` prefix, classification yields an Unknown-kind record whose field
names are exactly the original ones (values only passing through the
integer-coercion pass), with no synthesized fields. -/
theorem c6_amended_theorem (src : Dict) (info : List Char)
    (hinfo : dictGet src (chars ("info")) = some (Value.vStr info))
    (hopt : keysClean src)
    (hnone : matchesNone info = true) :
    parse_record src = Except.ok ⟨chars ("unknown"), coercePass src⟩ ∧
    (coercePass src).map Prod.fst = src.map Prod.fst := by
  simp only [matchesNone, Bool.and_eq_true, Option.isNone_iff_eq_none] at hnone
  obtain ⟨⟨⟨⟨⟨⟨h1, h2⟩, h3⟩, h4⟩, h5⟩, h6⟩, h7⟩ := hnone
  have hcl : classify record_map src info = ⟨chars ("unknown"), src⟩ := by
    simp only [record_map, classify, h1, h2, h3, h4, h5, h6, h7]
  refine ⟨?_, keys_coercePass src⟩
  rw [parse_record_eq src info hinfo, hcl]
  simp only [Rec_rtype_mk, Rec_fields_mk]
  rw [expandLoop_skip (src.map Prod.fst) src hopt]

/-- Concrete instance of the amended C6. -/
theorem c6_witness :
    matchesNone (chars ("zzz")) = true ∧
    parse_record [(chars ("info"), Value.vStr (chars ("zzz")))] =
      Except.ok ⟨chars ("unknown"),
        coercePass [(chars ("info"), Value.vStr (chars ("zzz")))]⟩ :=
  ⟨by decide,
   (c6_amended_theorem [(chars ("info"), Value.vStr (chars ("zzz")))] (chars ("zzz"))
     (by decide) (by decide) (by decide)).1⟩

/-! Claim C8. -/

theorem recStr_marker (fs : Dict) :
    recStr ⟨chars ("marker"), fs⟩ =
      (dictGet fs (chars ("text"))).map
        (fun t => chars ("==== ") ++ pyStr t ++ chars (" ====")) := by
  unfold recStr
  simp only [Rec_rtype_mk, Rec_fields_mk]
  simp only [List.append_assoc]
  rw [if_neg (show ¬ chars ("marker") = chars ("command") by decide),
      if_neg (show ¬ chars ("marker") = chars ("query") by decide)]
  simp

/-- Claim C8: an entry whose `info` has the marker shape with marker text
`phase1` (and whose metadata stays off the reserved `options` prefix, as
fetched profiler entries do) classifies as a Marker-kind Record whose
`text` field is `"phase1"` and which renders as `==== phase1 ====`. -/
theorem c8_theorem (src : Dict) (info d : List Char)
    (hinfo : dictGet src (chars ("info")) = some (Value.vStr info))
    (hopt : keysClean src)
    (hm : research _re_marker_record info =
      some [(chars ("db"), d), (chars ("text"), chars ("phase1"))]) :
    ∃ fs, parse_record src = Except.ok ⟨chars ("marker"), fs⟩ ∧
      dictGet fs (chars ("text")) = some (Value.vStr (chars ("phase1"))) ∧
      recStr ⟨chars ("marker"), fs⟩ = some (chars ("==== phase1 ====")) := by
  have hcl : classify record_map src info =
      ⟨chars ("marker"),
        dictSet (dictSet src (chars ("db")) (Value.vStr d))
          (chars ("text")) (Value.vStr (chars ("phase1")))⟩ := by
    simp only [record_map, classify, hm]
    rfl
  have hkc : keysClean (dictSet (dictSet src (chars ("db")) (Value.vStr d))
      (chars ("text")) (Value.vStr (chars ("phase1")))) :=
    keysClean_set _ _ _ (keysClean_set _ _ _ hopt (by decide)) (by decide)
  have htext : dictGet (coercePass (dictSet (dictSet src (chars ("db")) (Value.vStr d))
      (chars ("text")) (Value.vStr (chars ("phase1"))))) (chars ("text"))
      = some (Value.vStr (chars ("phase1"))) := by
    rw [dictGet_coercePass, dictGet_set_self]
    have : coerceV (Value.vStr (chars ("phase1"))) = Value.vStr (chars ("phase1")) := by decide
    rw [Option.map_some', this]
  refine ⟨coercePass (dictSet (dictSet src (chars ("db")) (Value.vStr d))
      (chars ("text")) (Value.vStr (chars ("phase1")))), ?_, htext, ?_⟩
  · rw [parse_record_eq src info hinfo, hcl]
    simp only [Rec_rtype_mk, Rec_fields_mk]
    rw [expandLoop_skip _ _ (fun k hk => hkc k hk)]
  · rw [recStr_marker, htext]
    rfl

/-- Concrete marker round-trip instance for C8. -/
theorem c8_witness :
    research _re_marker_record
      (chars ("query test.phony_mongoprofile_marker \nquery: \x7b $query: \x7b text: \"phase1\" \x7d \x7d")) =
      some [(chars ("db"), chars ("test")), (chars ("text"), chars ("phase1"))] ∧
    rtypeOf (parse_record
      [(chars ("info"), Value.vStr
        (chars ("query test.phony_mongoprofile_marker \nquery: \x7b $query: \x7b text: \"phase1\" \x7d \x7d"))),
       (chars ("ts"), Value.vTs 1000)]) = some (chars ("marker")) := by
  refine ⟨by decide, ?_⟩
  obtain ⟨fs, h1, h2, h3⟩ := c8_theorem
    [(chars ("info"), Value.vStr
      (chars ("query test.phony_mongoprofile_marker \nquery: \x7b $query: \x7b text: \"phase1\" \x7d \x7d"))),
     (chars ("ts"), Value.vTs 1000)]
    (chars ("query test.phony_mongoprofile_marker \nquery: \x7b $query: \x7b text: \"phase1\" \x7d \x7d"))
    (chars ("test")) (by decide) (by decide) (by decide)
  rw [h1]
  rfl

/-! Claim C10. -/

/-- Claim C10: the Query and Marker patterns both demand a literal newline
before their `query:` line, so an `info` text without a newline never
classifies as Query-kind or Marker-kind — it falls through to a
lower-priority kind or Unknown. -/
theorem c10_theorem (info : List Char) (src : Dict) (r : Rec)
    (hn : ('\n' : Char) ∉ info)
    (hinfo : dictGet src (chars ("info")) = some (Value.vStr info))
    (hr : parse_record src = Except.ok r) :
    r.rtype ≠ chars ("query") ∧ r.rtype ≠ chars ("marker") := by
  have hqn : research _re_query_record info = none :=
    research_req '\n' _re_query_record (by decide) info hn
  have hmn : research _re_marker_record info = none :=
    research_req '\n' _re_marker_record (by decide) info hn
  have hty : (classify record_map src info).rtype ∈
      [chars ("command"), chars ("insert"), chars ("update"),
       chars ("remove"), chars ("get_more"), chars ("unknown")] := by
    cases hc2 : research _re_command_record info with
    | some gs =>
      simp only [record_map, classify, hmn, hc2, Rec_rtype_mk]
      decide
    | none =>
    cases hi2 : research _re_insert_record info with
    | some gs =>
      simp only [record_map, classify, hmn, hc2, hqn, hi2, Rec_rtype_mk]
      decide
    | none =>
    cases hu2 : research _re_update_record info with
    | some gs =>
      simp only [record_map, classify, hmn, hc2, hqn, hi2, hu2, Rec_rtype_mk]
      decide
    | none =>
    cases hr2 : research _re_remove_record info with
    | some gs =>
      simp only [record_map, classify, hmn, hc2, hqn, hi2, hu2, hr2, Rec_rtype_mk]
      decide
    | none =>
    cases hg2 : research _re_getmore_record info with
    | some gs =>
      simp only [record_map, classify, hmn, hc2, hqn, hi2, hu2, hr2, hg2, Rec_rtype_mk]
      decide
    | none =>
      simp only [record_map, classify, hmn, hc2, hqn, hi2, hu2, hr2, hg2, Rec_rtype_mk]
      decide
  have hrt : r.rtype = (classify record_map src info).rtype := by
    rw [parse_record_eq src info hinfo] at hr
    cases he : expandLoop ((classify record_map src info).fields.map Prod.fst)
        (classify record_map src info).fields with
    | ok fs =>
      rw [he] at hr
      simp only [Except.ok.injEq] at hr
      rw [← hr]
    | error e =>
      rw [he] at hr
      simp at hr
  rw [hrt]
  simp only [List.mem_cons, List.not_mem_nil, or_false] at hty
  rcases hty with h | h | h | h | h | h <;> rw [h] <;> exact ⟨by decide, by decide⟩

/-- Concrete single-line query-shaped instance for C10. -/
theorem c10_witness :
    ('\n' : Char) ∉ chars ("query test.foo ntoreturn:1 reslen:5") ∧
    parse_record [(chars ("info"),
        Value.vStr (chars ("query test.foo ntoreturn:1 reslen:5")))] =
      Except.ok ⟨chars ("unknown"),
        [(chars ("info"), Value.vStr (chars ("query test.foo ntoreturn:1 reslen:5")))]⟩ ∧
    (⟨chars ("unknown"),
        [(chars ("info"), Value.vStr (chars ("query test.foo ntoreturn:1 reslen:5")))]⟩ : Rec).rtype
      ≠ chars ("query") ∧
    (⟨chars ("unknown"),
        [(chars ("info"), Value.vStr (chars ("query test.foo ntoreturn:1 reslen:5")))]⟩ : Rec).rtype
      ≠ chars ("marker") := by
  refine ⟨by decide, by decide, ?_, ?_⟩
  · exact (c10_theorem (chars ("query test.foo ntoreturn:1 reslen:5"))
      [(chars ("info"), Value.vStr (chars ("query test.foo ntoreturn:1 reslen:5")))]
      ⟨chars ("unknown"),
        [(chars ("info"), Value.vStr (chars ("query test.foo ntoreturn:1 reslen:5")))]⟩
      (by decide) (by decide) (by decide)).1
  · exact (c10_theorem (chars ("query test.foo ntoreturn:1 reslen:5"))
      [(chars ("info"), Value.vStr (chars ("query test.foo ntoreturn:1 reslen:5")))]
      ⟨chars ("unknown"),
        [(chars ("info"), Value.vStr (chars ("query test.foo ntoreturn:1 reslen:5")))]⟩
      (by decide) (by decide) (by decide)).2

/-! Claim C7. -/

/-- `timedeltaVal` is exactly `diff.seconds + diff.microseconds / 1e6` for
the normalized `timedelta` decomposition that Python computes. -/
theorem timedeltaVal_eq (total : Int) :
    timedeltaVal total =
      (((total.emod 86400000000).ediv 1000000 : Int) : Rat) +
      (((total.emod 86400000000).emod 1000000 : Int) : Rat) / 1000000 := by
  unfold timedeltaVal
  rw [Rat.mkRat_eq_div]
  have h : ((1000000 : Int) * ((total.emod 86400000000).ediv 1000000) +
      (total.emod 86400000000).emod 1000000 : Int) = total.emod 86400000000 :=
    Int.ediv_add_emod _ 1000000
  conv_lhs => rw [← h]
  push_cast
  ring

theorem tsLoop_spec (rs : List Dict) : ∀ po : Option Int, cleanAll rs = true →
    tsLoop rs (po.map Value.vTs) = Except.ok (tsSpecGo rs po) := by
  induction rs with
  | nil => intro po _; rfl
  | cons r rest ih =>
    intro po hclean
    simp only [cleanAll, List.all_cons, Bool.and_eq_true] at hclean
    obtain ⟨hr, hrest⟩ := hclean
    simp only [tsClean, Bool.and_eq_true] at hr
    obtain ⟨hts, htsd⟩ := hr
    cases hget : dictGet r (chars ("ts")) with
    | none =>
      have hsetup : setup_ts_diff r (po.map Value.vTs) = Except.ok r := by
        unfold setup_ts_diff
        rw [hget]
        simp [truthyO]
      simp only [tsLoop, hsetup, hget, truthyO, Bool.false_eq_true, if_false]
      rw [ih po hrest]
      simp only [tsSpecGo, hget]
    | some v =>
      cases v with
      | vTs t =>
        cases po with
        | none =>
          have hsetup : setup_ts_diff r (Option.map Value.vTs none) = Except.ok r := by
            unfold setup_ts_diff
            simp [truthyO]
          simp only [tsLoop, hsetup, hget, truthyO, truthy, if_true]
          have ih2 := ih (some t) hrest
          simp only [Option.map_some'] at ih2
          rw [ih2]
          simp only [tsSpecGo, hget]
        | some q =>
          have hsetup : setup_ts_diff r (Option.map Value.vTs (some q)) =
              Except.ok (dictSet r (chars ("ts_diff"))
                (Value.vFloat (timedeltaVal (t - q)))) := by
            unfold setup_ts_diff
            rw [hget]
            simp [truthyO, truthy]
          simp only [tsLoop, hsetup]
          have hget2 : dictGet (dictSet r (chars ("ts_diff"))
              (Value.vFloat (timedeltaVal (t - q)))) (chars ("ts")) = some (Value.vTs t) := by
            rw [dictGet_set_ne _ _ _ _ (by decide)]
            exact hget
          simp only [hget2, truthyO, truthy, if_true]
          have ih2 := ih (some t) hrest
          simp only [Option.map_some'] at ih2
          rw [ih2]
          simp only [tsSpecGo, hget]
      | vStr s => rw [hget] at hts; simp at hts
      | vInt n => rw [hget] at hts; simp at hts
      | vBool b => rw [hget] at hts; simp at hts
      | vFloat q => rw [hget] at hts; simp at hts

theorem tsSpecGo_getD (rs : List Dict) : ∀ (po : Option Int) (i : Nat),
    cleanAll rs = true → i < rs.length →
    dictGet ((tsSpecGo rs po).getD i []) (chars ("ts_diff")) =
      (match dictGet (rs.getD i []) (chars ("ts")),
          (match lastTs (rs.take i) with
           | some t => some t
           | none => po) with
       | some (Value.vTs n), some q => some (Value.vFloat (timedeltaVal (n - q)))
       | _, _ => none) := by
  induction rs with
  | nil => intro po i _ hi; simp at hi
  | cons r rest ih =>
    intro po i hclean hi
    simp only [cleanAll, List.all_cons, Bool.and_eq_true] at hclean
    obtain ⟨hr, hrest⟩ := hclean
    simp only [tsClean, Bool.and_eq_true] at hr
    obtain ⟨hts, htsd⟩ := hr
    cases i with
    | zero =>
      rw [Option.isNone_iff_eq_none] at htsd
      simp only [tsSpecGo, List.getD_cons_zero, List.take_zero]
      cases hget : dictGet r (chars ("ts")) with
      | none => simp [hget, htsd, lastTs]
      | some v =>
        cases v with
        | vTs t =>
          cases po with
          | none => simp [hget, htsd, lastTs]
          | some q => simp [hget, lastTs, dictGet_set_self]
        | vStr s => rw [hget] at hts; simp at hts
        | vInt n => rw [hget] at hts; simp at hts
        | vBool b => rw [hget] at hts; simp at hts
        | vFloat q2 => rw [hget] at hts; simp at hts
    | succ n =>
      have hi2 : n < rest.length := by simpa using hi
      simp only [tsSpecGo, List.getD_cons_succ, List.take_succ_cons]
      cases hget : dictGet r (chars ("ts")) with
      | none =>
        simp only [hget]
        rw [ih po n hrest hi2]
        have hacc : (match lastTs (rest.take n) with
              | some t2 => some t2
              | none => po)
            = (match lastTs (r :: rest.take n) with
              | some t2 => some t2
              | none => po) := by
          cases hl : lastTs (rest.take n) <;> simp [lastTs, hl, hget]
        rw [hacc]
      | some v =>
        cases v with
        | vTs t =>
          simp only [hget]
          rw [ih (some t) n hrest hi2]
          have hacc : (match lastTs (rest.take n) with
                | some t2 => some t2
                | none => some t)
              = (match lastTs (r :: rest.take n) with
                | some t2 => some t2
                | none => po) := by
            cases hl : lastTs (rest.take n) <;> simp [lastTs, hl, hget]
          rw [hacc]
        | vStr s => rw [hget] at hts; simp at hts
        | vInt n2 => rw [hget] at hts; simp at hts
        | vBool b => rw [hget] at hts; simp at hts
        | vFloat q2 => rw [hget] at hts; simp at hts

/-- Claim C7, as stated, is false on the value: `_setup_ts_diff` stores
`diff.seconds + diff.microseconds/1e6`, which drops the `timedelta`'s day
part.  For two consecutive timestamps one day plus 2.5 seconds apart, the
stored `ts_diff` is `2.5`, while the signed difference in seconds (which
the claim specifies) is `86402.5`. -/
theorem c7_counterexample :
    tsLoop [[(chars ("ts"), Value.vTs 36000000000)],
            [(chars ("ts"), Value.vTs 122402500000)]] none =
      Except.ok [[(chars ("ts"), Value.vTs 36000000000)],
                 [(chars ("ts"), Value.vTs 122402500000),
                  (chars ("ts_diff"), Value.vFloat (mkRat 5 2))]] ∧
    (mkRat 5 2 : Rat) = 5 / 2 ∧
    ((122402500000 - 36000000000 : Int) : Rat) / 1000000 = 172805 / 2 ∧
    ((5 : Rat) / 2) ≠ 172805 / 2 := by
  refine ⟨by decide, ?_, by norm_num, by norm_num⟩
  rw [Rat.mkRat_eq_div]
  norm_num

/-- Claim C7 (amended): in the drained sequence, `ts_diff` is set on a
record exactly when that record and some earlier record carry a timestamp,
and equals the `timedelta`-normalized within-day value
`(Δµs mod 86400·10^6)/10^6` seconds of the difference Δ to the most recent
preceding timestamp — which agrees with the signed difference whenever
`0 ≤ Δ < 24h` (e.g. `2.5` for timestamps 10:00:00.000000 and
10:00:02.500000); it is absent for the first timestamped record. -/
theorem c7_amended_theorem (rs : List Dict) (hclean : cleanAll rs = true) :
    tsLoop rs none = Except.ok (tsSpecGo rs none) ∧
    ∀ i : Nat, i < rs.length →
      dictGet ((tsSpecGo rs none).getD i []) (chars ("ts_diff")) =
        (match dictGet (rs.getD i []) (chars ("ts")), lastTs (rs.take i) with
         | some (Value.vTs n), some q => some (Value.vFloat (timedeltaVal (n - q)))
         | _, _ => none) := by
  constructor
  · exact tsLoop_spec rs none hclean
  · intro i hi
    rw [tsSpecGo_getD rs none i hclean hi]
    cases hl : lastTs (rs.take i) <;> simp [hl]

/-- Concrete instance of the amended C7: consecutive timestamps
10:00:00.000000 and 10:00:02.500000 give `ts_diff = 2.5`, and the first
timestamped record carries no `ts_diff`. -/
theorem c7_witness :
    cleanAll [[(chars ("ts"), Value.vTs 36000000000)],
              [(chars ("ts"), Value.vTs 36002500000)]] = true ∧
    tsLoop [[(chars ("ts"), Value.vTs 36000000000)],
            [(chars ("ts"), Value.vTs 36002500000)]] none =
      Except.ok (tsSpecGo [[(chars ("ts"), Value.vTs 36000000000)],
                           [(chars ("ts"), Value.vTs 36002500000)]] none) ∧
    dictGet ((tsSpecGo [[(chars ("ts"), Value.vTs 36000000000)],
                        [(chars ("ts"), Value.vTs 36002500000)]] none).getD 1 [])
      (chars ("ts_diff")) = some (Value.vFloat (mkRat 5 2)) ∧
    (mkRat 5 2 : Rat) = 5 / 2 ∧
    dictGet ((tsSpecGo [[(chars ("ts"), Value.vTs 36000000000)],
                        [(chars ("ts"), Value.vTs 36002500000)]] none).getD 0 [])
      (chars ("ts_diff")) = none := by
  refine ⟨by decide,
    (c7_amended_theorem [[(chars ("ts"), Value.vTs 36000000000)],
      [(chars ("ts"), Value.vTs 36002500000)]] (by decide)).1, ?_, ?_, ?_⟩
  · rw [(c7_amended_theorem [[(chars ("ts"), Value.vTs 36000000000)],
      [(chars ("ts"), Value.vTs 36002500000)]] (by decide)).2 1 (by decide)]
    decide
  · rw [Rat.mkRat_eq_div]
    norm_num
  · rw [(c7_amended_theorem [[(chars ("ts"), Value.vTs 36000000000)],
      [(chars ("ts"), Value.vTs 36002500000)]] (by decide)).2 0 (by decide)]
    decide
